import Mathlib

/-!
Shallow embedding of `src/scripts/flatpak-node-generator.py` (FlowForge).

The script turns a parsed `package-lock.json` document into a list of
source records.  We embed the two traversal paths of
`process_package_lock` (the flat `packages` form and the legacy nested
`dependencies` form), the helper `get_sha512`, and the exact string /
base64 manipulations the script performs, including the lenient
semantics of CPython's `base64.b64decode(s)` (with the default
`validate=False`) that the flat path relies on.

All string operations are modelled by structurally recursive functions
on character lists (Python strings index by character); `String` is kept
at the boundary so records hold strings.  Python's `str.replace` is
applied by the script only with single-character patterns, where it is
exactly a map / filter over the characters.

Network access and the SHA-512 digest itself are external effects; they
are modelled by an explicit environment `Env` carrying a fetch oracle
(`none` models any transport failure, including an incomplete read) and
an abstract hex-digest function standing for
`hashlib.sha512(data).hexdigest()`.

A run of the flat path can raise an uncaught `binascii.Error` (there is
no `try` around `base64.b64decode`), so the flat traversal returns an
`Option`: `none` models the whole process aborting with a traceback and
a nonzero exit status, with no output file written.
-/

namespace FlowForge

/-- Raw bytes, each entry a value below 256. -/
abbrev Bytes := List Nat

/-- Decidable test that `p` is a prefix of `s`, modelling Python's
`s.startswith(p)` by structural recursion (arguments: pattern first). -/
def isPre : List Char → List Char → Bool
  | [], _ => true
  | _ :: _, [] => false
  | p :: ps, c :: cs => p = c && isPre ps cs

/-- Python `s.startswith(pat)`. -/
def strStartsWith (s pat : String) : Bool :=
  isPre pat.data s.data

/-- Python `s.replace(x, '')` for a single character `x`: every
occurrence is removed. -/
def charsRemove (x : Char) (cs : List Char) : List Char :=
  cs.filter (fun c => c ≠ x)

/-- Python `s.replace(x, y)` for single characters: every occurrence of
`x` becomes `y`. -/
def charsSwap (x y : Char) (cs : List Char) : List Char :=
  cs.map (fun c => if c = x then y else c)

/-- Python `s.split(sep)` for a one-character separator: the list of
(possibly empty) segments; always nonempty. -/
def splitChar (sep : Char) : List Char → List (List Char)
  | [] => [[]]
  | c :: cs =>
    let r := splitChar sep cs
    if c = sep then [] :: r
    else
      match r with
      | [] => [[c]]
      | g :: gs => (c :: g) :: gs

/-- Python `s.split('/')[-1]`: the last `/`-separated segment (`split`
always returns at least one element, so the indexing is total). -/
def lastSeg (s : String) : String :=
  String.mk ((splitChar '/' s.data).getLastD [])

/-- Characters after the first occurrence of the (nonempty) pattern
`pat`, or `none` when `pat` does not occur. -/
def afterSub (pat : List Char) : List Char → Option (List Char)
  | [] => none
  | c :: cs =>
    if isPre pat (c :: cs) then some (List.drop (pat.length - 1) cs)
    else afterSub pat cs

/-- Modelled after `urllib.parse.urlparse(url).path` for the URL shapes
this program sees: the fragment (after the first `#`) and then the query
(after the first `?`) are stripped; if the rest contains `://` the
scheme and the authority (up to the next `/`) are removed and the path
keeps its leading `/`; otherwise the whole rest is the path.  Parameter
splitting on `;` is not modelled. -/
def urlparsePath (url : String) : String :=
  let noQF := (url.data.takeWhile (fun c => c ≠ '#')).takeWhile (fun c => c ≠ '?')
  match afterSub [':', '/', '/'] noQF with
  | none => String.mk noQF
  | some rest => String.mk (rest.dropWhile (fun c => c ≠ '/'))

/-- Value of a character in the standard base64 alphabet, `none` for
characters outside it (including the padding character). -/
def b64Val (c : Char) : Option Nat :=
  if 'A' ≤ c ∧ c ≤ 'Z' then some (c.toNat - 65)
  else if 'a' ≤ c ∧ c ≤ 'z' then some (c.toNat - 71)
  else if '0' ≤ c ∧ c ≤ '9' then some (c.toNat + 4)
  else if c = '+' then some 62
  else if c = '/' then some 63
  else none

/-- State machine of CPython's `binascii.a2b_base64` in non-strict mode
(which is what `base64.b64decode(s)` calls after discarding invalid
characters; discarding twice is harmless, so we run the machine on the
raw characters).  `quadPos` is the position inside the current 4-char
group, `leftchar` the pending bits, `pads` the run of padding characters
seen at position ≥ 2, `acc` the bytes produced so far (reversed).
A `'='` at position ≥ 2 that completes a pad sequence ends the decode
successfully, ignoring the rest; a `'='` elsewhere is skipped; invalid
characters are skipped; at the end of input a partial group is an error
(`none`), matching the `Incorrect padding` and `data characters cannot
be 1 more than a multiple of 4` exceptions. -/
def a2bBase64 : List Char → Nat → Nat → Nat → Bytes → Option Bytes
  | [], quadPos, _, _, acc =>
      if quadPos = 0 then some acc.reverse else none
  | c :: rest, quadPos, leftchar, pads, acc =>
      if c = '=' then
        if 2 ≤ quadPos then
          if 4 ≤ quadPos + (pads + 1) then some acc.reverse
          else a2bBase64 rest quadPos leftchar (pads + 1) acc
        else a2bBase64 rest quadPos leftchar pads acc
      else
        match b64Val c with
        | none => a2bBase64 rest quadPos leftchar pads acc
        | some v =>
          match quadPos with
          | 0 => a2bBase64 rest 1 v 0 acc
          | 1 => a2bBase64 rest 2 (v % 16) 0 ((leftchar * 4 + v / 16) :: acc)
          | 2 => a2bBase64 rest 3 (v % 4) 0 ((leftchar * 16 + v / 4) :: acc)
          | _ => a2bBase64 rest 0 0 0 ((leftchar * 64 + v) :: acc)

/-- Model of `base64.b64decode(s)` with the default `validate=False`:
`none` models the raised `binascii.Error`. -/
def b64decodePy (s : String) : Option Bytes :=
  a2bBase64 s.data 0 0 0 []

/-- Lowercase hexadecimal digit, as produced by Python's `bytes.hex()`
and `hexdigest()`. -/
def hexDigitChar (n : Nat) : Char :=
  if n < 10 then Char.ofNat (48 + n) else Char.ofNat (87 + n)

/-- Model of Python's `bytes.hex()`: two lowercase hex digits per byte. -/
def bytesToHex (bs : Bytes) : String :=
  String.mk (bs.flatMap (fun b => [hexDigitChar (b / 16 % 16), hexDigitChar (b % 16)]))

/-- The external effects of the script: `fetch url` is the full response
body of a GET of `url` (`none` for any transport failure, incomplete
reads included), and `sha512hex` stands for
`hashlib.sha512(data).hexdigest()`, the lowercase hexadecimal rendering
of the 512-bit digest of `data`. -/
structure Env where
  sha512hex : Bytes → String
  fetch : String → Option Bytes

/-- Lines 14-22: download a URL and return the hex SHA-512 of the full
body; every exception is caught, a warning naming the URL is printed,
and `None` is returned. -/
def get_sha512 (env : Env) (url : String) : Option String :=
  (env.fetch url).map env.sha512hex

/-- One value of the flat `packages` mapping: `resolved` is the resolved
download URL when the key is present with a string value, and
`integrity` models `info.get('integrity', '')` (so a missing key is the
empty string). -/
structure PackageInfo where
  resolved : Option String
  integrity : String
deriving DecidableEq

/-- Python truthiness of `info.get('resolved')` for an optional string:
`None` and the empty string are falsy. -/
def truthyStr : Option String → Bool
  | none => false
  | some s => !s.data.isEmpty

/-- One emitted source object.  The field order mirrors the insertion
order of the Python dict at both construction sites (lines 53-65 and
85-90): type, url, sha512, dest-filename. -/
structure SourceRecord where
  type : String
  url : String
  sha512 : String
  destFilename : String
deriving DecidableEq

/-- Key/value pairs of the emitted JSON object, in the dict's insertion
order (Python dicts preserve it and `json.dump` serializes it). -/
def SourceRecord.toPairs (r : SourceRecord) : List (String × String) :=
  [("type", r.type), ("url", r.url), ("sha512", r.sha512),
   ("dest-filename", r.destFilename)]

/-- Lines 42-43: the transformation the flat path applies to the part of
the integrity string after `sha512-` before handing it to
`base64.b64decode`: delete every `/`, turn every `+` into `-`, delete
every `=`, then left-justify with `=` up to the next multiple of 4
(`.replace('/','').replace('+','-').replace('=','')` followed by
`.ljust((len+3)//4*4, '=')`). -/
def flatIntegrityB64 (integrity : String) : String :=
  let s := charsRemove '=' (charsSwap '+' '-' (charsRemove '/' (integrity.data.drop 7)))
  String.mk (s ++ List.replicate ((s.length + 3) / 4 * 4 - s.length) '=')

/-- Lines 59-63: the destination filename of a flat-form entry: strip a
leading `node_modules/` (13 characters) from the key, else take the last
segment of the parsed URL path. -/
def flatDest (name url : String) : String :=
  if strStartsWith name "node_modules/" then String.mk (name.data.drop 13)
  else lastSeg (urlparsePath url)

/-- Lines 33-66: the loop over `data['packages'].items()`.  The result
is `none` when `base64.b64decode` raises on some reached entry, which
aborts the whole run (there is no handler around it). -/
def processPackages (env : Env) : List (String × PackageInfo) → Option (List SourceRecord)
  | [] => some []
  | (name, info) :: rest =>
    if name = "" ∨ truthyStr info.resolved = false then
      processPackages env rest
    else
      let url := info.resolved.getD ""
      if strStartsWith info.integrity "sha512-" then
        match b64decodePy (flatIntegrityB64 info.integrity) with
        | none => none
        | some bs =>
          Option.map
            (fun tl => { type := "file", url := url, sha512 := bytesToHex bs,
                         destFilename := "npm-cache/" ++ flatDest name url } :: tl)
            (processPackages env rest)
      else
        match get_sha512 env url with
        | none => processPackages env rest
        | some h =>
          if h = "" then processPackages env rest
          else
            Option.map
              (fun tl => { type := "file", url := url, sha512 := h,
                           destFilename := "npm-cache/" ++ flatDest name url } :: tl)
              (processPackages env rest)

mutual
/-- One value of a legacy `dependencies` mapping: either a JSON mapping
(`record`, with `resolved` present iff that key is there, `integrity`
modelling `info.get('integrity', '')`, and the optional nested
`dependencies` mapping), or any non-mapping JSON value (`scalar`), which
fails the `isinstance(info, dict)` test. -/
inductive DepValue where
  | record (resolved : Option String) (integrity : String)
      (dependencies : Option DepMap)
  | scalar (v : String)

/-- A legacy `dependencies` mapping: its name→value entries in document
order (Python dicts preserve insertion order). -/
inductive DepMap where
  | nil
  | cons (name : String) (v : DepValue) (rest : DepMap)
end

mutual
/-- Lines 70-95: the recursive `process_deps` loop of the legacy form,
as the concatenation of each entry's contribution in document order.
This path never raises, so it returns a plain list. -/
def process_deps (env : Env) : DepMap → String → List SourceRecord
  | .nil, _ => []
  | .cons name v rest, pre =>
    processDepsEntry env name v pre ++ process_deps env rest pre

/-- Lines 71-95: the body of the loop for one `name, info` pair.  An
entry contributes only when it is a mapping containing a `resolved` key;
inline `sha512-` integrity is passed through undecoded (line 79);
otherwise the URL is fetched and a falsy result (`if not sha512_hex:
continue`, expressed here through `truthyStr`) skips the entry,
which also skips its nested dependencies.  The nested mapping is visited
(with the name appended to the prefix) only after a record was
appended. -/
def processDepsEntry (env : Env) (name : String) : DepValue → String → List SourceRecord
  | .scalar _, _ => []
  | .record none _ _, _ => []
  | .record (some url) integrity dependencies, pre =>
    if strStartsWith integrity "sha512-" then
      { type := "file", url := url, sha512 := String.mk (integrity.data.drop 7),
        destFilename := "npm-cache/" ++ lastSeg url } ::
        nestedDeps env dependencies (pre ++ name ++ "/")
    else if truthyStr (get_sha512 env url) = false then []
    else
      { type := "file", url := url, sha512 := (get_sha512 env url).getD "",
        destFilename := "npm-cache/" ++ lastSeg url } ::
        nestedDeps env dependencies (pre ++ name ++ "/")

/-- Lines 93-95: the recursion into `info['dependencies']` when that
key is present. -/
def nestedDeps (env : Env) : Option DepMap → String → List SourceRecord
  | none, _ => []
  | some ds, pre2 => process_deps env ds pre2
end

/-- Unfolding equation of `process_deps` on the empty mapping. -/
theorem process_deps_nil (env : Env) (pre : String) :
    process_deps env .nil pre = [] := rfl

/-- Unfolding equation of `process_deps` on a nonempty mapping. -/
theorem process_deps_cons (env : Env) (name : String) (v : DepValue)
    (rest : DepMap) (pre : String) :
    process_deps env (.cons name v rest) pre =
      processDepsEntry env name v pre ++ process_deps env rest pre := rfl

/-- Unfolding equation of `processDepsEntry` on a non-mapping value. -/
theorem processDepsEntry_scalar (env : Env) (name v pre : String) :
    processDepsEntry env name (.scalar v) pre = [] := rfl

/-- Unfolding equation of `processDepsEntry` on a record without a
`resolved` key. -/
theorem processDepsEntry_unresolved (env : Env) (name integ : String)
    (dep : Option DepMap) (pre : String) :
    processDepsEntry env name (.record none integ dep) pre = [] := rfl

/-- Unfolding equation of `processDepsEntry` on a record with a
`resolved` key. -/
theorem processDepsEntry_resolved (env : Env) (name url integ : String)
    (dep : Option DepMap) (pre : String) :
    processDepsEntry env name (.record (some url) integ dep) pre =
      if strStartsWith integ "sha512-" then
        { type := "file", url := url, sha512 := String.mk (integ.data.drop 7),
          destFilename := "npm-cache/" ++ lastSeg url } ::
          nestedDeps env dep (pre ++ name ++ "/")
      else if truthyStr (get_sha512 env url) = false then []
      else
        { type := "file", url := url, sha512 := (get_sha512 env url).getD "",
          destFilename := "npm-cache/" ++ lastSeg url } ::
          nestedDeps env dep (pre ++ name ++ "/") := rfl

/-- Unfolding equation of `nestedDeps` without the key. -/
theorem nestedDeps_none (env : Env) (pre2 : String) :
    nestedDeps env none pre2 = [] := rfl

/-- Unfolding equation of `nestedDeps` with the key present. -/
theorem nestedDeps_some (env : Env) (ds : DepMap) (pre2 : String) :
    nestedDeps env (some ds) pre2 = process_deps env ds pre2 := rfl

/-- The parsed lockfile: the two top-level keys the dispatcher looks at.
Each is `some` exactly when the key is present in the document. -/
structure LockDocument where
  packages : Option (List (String × PackageInfo))
  dependencies : Option DepMap

/-- Lines 24-99: load path aside, the dispatch between the two forms:
`packages` wins, else `dependencies` (entered with the empty prefix),
else an empty list.  `none` models the run aborting with an uncaught
exception (nonzero exit status, no output written); `some l` models a
completed run that writes `l` as the JSON array and exits 0. -/
def process_package_lock (env : Env) (doc : LockDocument) : Option (List SourceRecord) :=
  match doc.packages with
  | some pkgs => processPackages env pkgs
  | none =>
    match doc.dependencies with
    | some deps => some (process_deps env deps "")
    | none => some []

/-! ### Definitions taken from the specification's words

These two definitions follow the specification text, not the source;
they exist to be compared with the behaviour of the code above. -/

/-- Standard base64 decoding with well-formedness checking, as the
specification's hash-resolution step demands: the length must be a
multiple of four, padding may only be the trailing at most two
characters, and every other character must belong to the standard
alphabet; on well-formed input the decode agrees with the group decode
of `a2bBase64`. -/
def strictB64Decode (s : String) : Option Bytes :=
  let cs := s.data
  let data := cs.takeWhile (fun c => c ≠ '=')
  if cs.length % 4 ≠ 0 then none
  else if 2 < cs.length - data.length then none
  else if (cs.drop data.length).any (fun c => c ≠ '=') then none
  else if data.any (fun c => (b64Val c).isNone) then none
  else b64decodePy s

/-- Follows the spec's words for hash-resolution step 1: decode the
remainder of the integrity string "as standard base64 — accounting for
URL-safe character substitutions and required padding — into raw
bytes": URL-safe substitutions undone (every `-` back to `+`, every `_`
back to `/`), padding restored to a multiple of four, then standard
base64 decoding. -/
def specIntegrityDecode (b64tail : String) : Option Bytes :=
  let std := charsSwap '_' '/' (charsSwap '-' '+' b64tail.data)
  let padded := std ++ List.replicate ((std.length + 3) / 4 * 4 - std.length) '='
  strictB64Decode (String.mk padded)

/-- Follows the spec's words for destination filenames: "the final path
segment of the URL", read as the last `/`-separated segment of the
URL's path component. -/
def specFinalPathSeg (url : String) : String :=
  lastSeg (urlparsePath url)

/-! ### Concrete inputs used by the claim evaluations -/

/-- An environment whose every fetch fails; the digest function is
never consulted on these inputs. -/
def envNone : Env :=
  { sha512hex := fun _ => "", fetch := fun _ => none }

/-- Standard SHA-512 test vector: the lowercase hex digest of the empty
input. -/
def emptySha512Hex : String :=
  "cf83e1357eefb8bdf1542850d66d8007d620e4050b5715dc83f4a921d36ce9ce47d0d13c5d85f2b0ff8318d2877eec2f63b931bd47417a81a538327af927da3e"

/-- The same digest in standard base64, i.e. the payload of the
integrity string `sha512-<this>`; it contains both a `/` and two `+`
characters. -/
def emptySha512B64 : String :=
  "z4PhNX7vuL3xVChQ1m2AB9Yg5AULVxXcg/SpIdNs6c5H0NE8XYXysP+DGNKHfuwvY7kxvUdBeoGlODJ6+SfaPg=="

/-- What the flat path actually emits for that integrity string: after
the `/` is deleted and the two `+` are turned into `-` (which the
decoder then discards), the decode yields 62 bytes, not the 64-byte
digest. -/
def mangledVectorHex : String :=
  "cf83e1357eefb8bdf1542850d66d8007d620e4050b5715dc812a4874db3a7391f4344f17617cac3c318d2877eec2f63b931bd47417a81a538327a49f68f8"

/-- Flat-form document holding the test-vector integrity string. -/
def docVector : LockDocument :=
  { packages := some [("node_modules/foo",
      { resolved := some "https://x/foo-1.0.tgz",
        integrity := "sha512-" ++ emptySha512B64 })],
    dependencies := none }

/-- Flat-form document with one undecodable and one valid integrity. -/
def docMalformed : LockDocument :=
  { packages := some [
      ("node_modules/bad",
        { resolved := some "https://x/bad.tgz",
          integrity := "sha512-!!!not-base64!!!" }),
      ("node_modules/good",
        { resolved := some "https://x/good.tgz", integrity := "sha512-AAAA" })],
    dependencies := none }

/-- Tree-form document with a single inline-integrity entry. -/
def docTreeAAAA : LockDocument :=
  { packages := none,
    dependencies := some (.cons "a"
      (.record (some "https://x/a.tgz") "sha512-AAAA" none) .nil) }

/-- Flat-form document with the same URL and integrity string. -/
def docFlatAAAA : LockDocument :=
  { packages := some [("node_modules/a",
      { resolved := some "https://x/a.tgz", integrity := "sha512-AAAA" })],
    dependencies := none }

/-- Tree-form document whose root record has no `resolved` key but does
have a nested mapping with an emittable entry. -/
def docOrphanChild : LockDocument :=
  { packages := none,
    dependencies := some (.cons "a"
      (.record none "" (some (.cons "b"
        (.record (some "https://x/b.tgz") "sha512-AAAA" none) .nil))) .nil) }

/-- Tree-form document whose entry has an empty `resolved` value and the
degenerate integrity string consisting of the bare tag. -/
def docDegenerate : LockDocument :=
  { packages := none,
    dependencies := some (.cons "a" (.record (some "") "sha512-" none) .nil) }

/-- Tree-form document whose URL carries a query string containing a
slash after the final path segment. -/
def docQueryUrl : LockDocument :=
  { packages := none,
    dependencies := some (.cons "a"
      (.record (some "https://x/a.tgz?q=1/2") "sha512-AAAA" none) .nil) }

/-! ### Helper lemmas -/

/-- Python truthiness of a present string value is exactly
non-emptiness. -/
theorem truthyStr_some_iff (s : String) : truthyStr (some s) = true ↔ s ≠ "" := by
  obtain ⟨data⟩ := s
  cases data with
  | nil => simp [truthyStr]
  | cons c cs =>
    simp only [truthyStr, List.isEmpty_cons, Bool.not_false, true_iff]
    intro h
    have : (String.mk (c :: cs)).data = ("" : String).data := by rw [h]
    simp at this

/-- Every record the flat loop emits carries the type tag "file" and a
non-empty URL (the URL comes from a `resolved` value that passed the
truthiness guard). -/
theorem processPackages_mem (env : Env) (pkgs : List (String × PackageInfo))
    (l : List SourceRecord) (h : processPackages env pkgs = some l) :
    ∀ r ∈ l, r.type = "file" ∧ r.url ≠ "" := by
  induction pkgs generalizing l with
  | nil =>
    simp only [processPackages, Option.some.injEq] at h
    subst h; simp
  | cons hd tl ih =>
    obtain ⟨n, i⟩ := hd
    simp only [processPackages] at h
    by_cases hskip : (n = "" ∨ truthyStr i.resolved = false)
    · rw [if_pos hskip] at h
      exact ih l h
    · rw [if_neg hskip] at h
      have hres : truthyStr i.resolved = true := by
        rcases not_or.mp hskip with ⟨-, ht⟩
        exact eq_true_of_ne_false ht
      obtain ⟨s, hs⟩ : ∃ s, i.resolved = some s := by
        cases hr : i.resolved with
        | none => rw [hr] at hres; simp [truthyStr] at hres
        | some s => exact ⟨s, rfl⟩
      have hsne : s ≠ "" := (truthyStr_some_iff s).mp (hs ▸ hres)
      have hurl : i.resolved.getD "" = s := by rw [hs]; rfl
      split at h
      · split at h
        · exact absurd h (by simp)
        · rcases Option.map_eq_some'.mp h with ⟨tl', htl', hcons⟩
          subst hcons
          intro r hr
          rcases List.mem_cons.mp hr with rfl | hmem
          · exact ⟨rfl, by show i.resolved.getD "" ≠ ""; rw [hurl]; exact hsne⟩
          · exact ih tl' htl' r hmem
      · split at h
        · exact ih l h
        · split at h
          · exact ih l h
          · rcases Option.map_eq_some'.mp h with ⟨tl', htl', hcons⟩
            subst hcons
            intro r hr
            rcases List.mem_cons.mp hr with rfl | hmem
            · exact ⟨rfl, by show i.resolved.getD "" ≠ ""; rw [hurl]; exact hsne⟩
            · exact ih tl' htl' r hmem

/-- Strong-induction workhorse for the tree traversal: every record it
emits carries the type tag "file". -/
theorem process_deps_type_aux :
    ∀ (n : Nat) (env : Env) (deps : DepMap) (pre : String),
      sizeOf deps ≤ n → ∀ r ∈ process_deps env deps pre, r.type = "file" := by
  intro n
  induction n with
  | zero =>
    intro env deps pre hle
    cases deps <;> simp at hle
  | succ n ih =>
    intro env deps pre hle r hr
    cases deps with
    | nil => simp [process_deps_nil] at hr
    | cons name v rest =>
      have hrest : sizeOf rest ≤ n := by
        simp only [DepMap.cons.sizeOf_spec] at hle; omega
      rw [process_deps_cons] at hr
      rcases List.mem_append.mp hr with hl | hrr
      · cases v with
        | scalar s => simp [processDepsEntry_scalar] at hl
        | record res integ dep =>
          cases res with
          | none => simp [processDepsEntry_unresolved] at hl
          | some url =>
            have hnest : ∀ r' ∈ nestedDeps env dep (pre ++ name ++ "/"),
                r'.type = "file" := by
              cases dep with
              | none => simp [nestedDeps_none]
              | some ds =>
                have hds : sizeOf ds ≤ n := by
                  simp only [DepMap.cons.sizeOf_spec, DepValue.record.sizeOf_spec,
                    Option.some.sizeOf_spec] at hle
                  omega
                rw [nestedDeps_some]
                exact fun r' hr' => ih env ds (pre ++ name ++ "/") hds r' hr'
            rw [processDepsEntry_resolved] at hl
            split at hl
            · rcases List.mem_cons.mp hl with rfl | hm
              · rfl
              · exact hnest r hm
            · split at hl
              · simp at hl
              · rcases List.mem_cons.mp hl with rfl | hm
                · rfl
                · exact hnest r hm
      · exact ih env rest pre hrest r hrr

/-- Every record the tree traversal emits carries the type tag
"file". -/
theorem process_deps_type (env : Env) (deps : DepMap) (pre : String) :
    ∀ r ∈ process_deps env deps pre, r.type = "file" :=
  process_deps_type_aux (sizeOf deps) env deps pre le_rfl

/-! ### Claim theorems -/

set_option maxRecDepth 8000 in
/-- C1: the claim is right and the code is wrong.  On the standard
SHA-512 test vector (the digest of the empty input), the decoding the
claim describes — undo URL-safe substitutions, restore padding, decode
as standard base64, render as lowercase hex — yields exactly the known
digest hex; but the run emits a different, 62-byte hex value, because
lines 42-43 delete every `/` of the base64 payload and turn every `+`
into `-`, which the decoder then discards. -/
theorem c1_flat_integrity_code_bug :
    (specIntegrityDecode emptySha512B64).map bytesToHex = some emptySha512Hex ∧
    process_package_lock envNone docVector =
      some [{ type := "file", url := "https://x/foo-1.0.tgz",
              sha512 := mangledVectorHex,
              destFilename := "npm-cache/foo" }] ∧
    mangledVectorHex ≠ emptySha512Hex := by
  refine ⟨by decide, by decide, by decide⟩

/-- C2 counterexample: on a document holding the claim's malformed
integrity string `sha512-!!!not-base64!!!` next to a valid entry, the
claim predicts the malformed entry is dropped, the run continues, the
valid entry is emitted and the process exits 0.  In fact
`base64.b64decode` raises an uncaught `binascii.Error` (modelled by
`none`): the run aborts with a nonzero exit status and nothing is
emitted — even though the valid entry alone would have produced a
record, as the second conjunct shows. -/
theorem c2_malformed_integrity_counterexample :
    process_package_lock envNone docMalformed = none ∧
    processPackages envNone
      [("node_modules/good",
        { resolved := some "https://x/good.tgz", integrity := "sha512-AAAA" })] =
      some [{ type := "file", url := "https://x/good.tgz", sha512 := "000000",
              destFilename := "npm-cache/good" }] := by
  refine ⟨by decide, by decide⟩

/-- C3: the claim is right and the code is wrong.  Hash resolution is
not uniform: for the same integrity string `sha512-AAAA`, the tree form
emits the raw base64 remainder `AAAA` (line 79 passes it through under
the comment "This would need proper conversion"), while the flat form —
and the spec's canonical hash — give the decoded hex `000000`. -/
theorem c3_tree_hash_not_decoded :
    process_package_lock envNone docTreeAAAA =
      some [{ type := "file", url := "https://x/a.tgz", sha512 := "AAAA",
              destFilename := "npm-cache/a.tgz" }] ∧
    process_package_lock envNone docFlatAAAA =
      some [{ type := "file", url := "https://x/a.tgz", sha512 := "000000",
              destFilename := "npm-cache/a" }] ∧
    (specIntegrityDecode "AAAA").map bytesToHex = some "000000" ∧
    ("AAAA" : String) ≠ "000000" := by
  refine ⟨by decide, by decide, by decide, by decide⟩

/-- C4 counterexample: the root record of `docOrphanChild` has nested
dependencies containing an entry that is emittable on its own (second
conjunct), yet the run emits nothing, because a record without a
`resolved` key is skipped entirely — its nested dependencies are not
traversed, contradicting the claim's "regardless". -/
theorem c4_nested_not_traversed_counterexample :
    process_package_lock envNone docOrphanChild = some [] ∧
    process_deps envNone
      (.cons "b" (.record (some "https://x/b.tgz") "sha512-AAAA" none) .nil) "a/" =
      [{ type := "file", url := "https://x/b.tgz", sha512 := "AAAA",
         destFilename := "npm-cache/b.tgz" }] := by
  refine ⟨by decide, by decide⟩

/-- C5 counterexample: a tree-form entry with `resolved` present but
empty and the degenerate integrity string `sha512-` is emitted with an
empty URL and an empty hash, violating both halves of the claimed
invariant. -/
theorem c5_empty_url_empty_hash_counterexample :
    process_package_lock envNone docDegenerate =
      some [{ type := "file", url := "", sha512 := "",
              destFilename := "npm-cache/" }] := by
  decide

/-- C7 counterexample: the flat form emits the six-character hash
`000000` for the integrity string `sha512-AAAA`, so the sha512 field is
not a string of exactly 64 lowercase hex characters (a correct SHA-512
digest would render as 128 hex characters anyway). -/
theorem c7_sha512_not_64_hex_counterexample :
    process_package_lock envNone docFlatAAAA =
      some [{ type := "file", url := "https://x/a.tgz", sha512 := "000000",
              destFilename := "npm-cache/a" }] ∧
    ("000000" : String).length ≠ 64 := by
  refine ⟨by decide, by decide⟩

/-- C8 counterexample: for a tree-form URL whose query string contains a
slash, the code derives the filename from the last `/`-separated segment
of the raw URL (`2`), not from the final segment of the URL's path
(`a.tgz`) as the claim states for tree form. -/
theorem c8_tree_dest_counterexample :
    process_package_lock envNone docQueryUrl =
      some [{ type := "file", url := "https://x/a.tgz?q=1/2", sha512 := "AAAA",
              destFilename := "npm-cache/2" }] ∧
    specFinalPathSeg "https://x/a.tgz?q=1/2" = "a.tgz" ∧
    ("npm-cache/2" : String) ≠ "npm-cache/" ++ specFinalPathSeg "https://x/a.tgz?q=1/2" := by
  refine ⟨by decide, by decide, by decide⟩

/-- C2 amended: a flat-form entry whose `sha512-` integrity does not
survive base64 decoding after the line 42-43 mangling raises an uncaught
`binascii.Error` that aborts the entire run: the traversal result is
`none` (nonzero exit status, no output written, no other entry emitted),
no matter what the other entries are. -/
theorem c2_undecodable_integrity_aborts (env : Env)
    (pkgs : List (String × PackageInfo)) (name : String) (info : PackageInfo)
    (hmem : (name, info) ∈ pkgs) (hname : name ≠ "")
    (hres : truthyStr info.resolved = true)
    (hint : strStartsWith info.integrity "sha512-" = true)
    (hdec : b64decodePy (flatIntegrityB64 info.integrity) = none) :
    processPackages env pkgs = none := by
  induction pkgs with
  | nil => cases hmem
  | cons hd tl ih =>
    obtain ⟨n, i⟩ := hd
    rcases List.mem_cons.mp hmem with heq | hmem'
    · injection heq with h1 h2
      subst h1; subst h2
      simp [processPackages, hname, hres, hint, hdec]
    · have h := ih hmem'
      simp only [processPackages]
      split
      · exact h
      · split
        · split
          · rfl
          · simp [h]
        · split
          · exact h
          · split
            · exact h
            · simp [h]

/-- C2 amended witness: the amended theorem applied to the concrete
malformed entry of the counterexample document. -/
theorem c2_undecodable_integrity_aborts_witness :
    processPackages envNone
      [("node_modules/bad",
        { resolved := some "https://x/bad.tgz",
          integrity := "sha512-!!!not-base64!!!" })] = none :=
  c2_undecodable_integrity_aborts envNone _ "node_modules/bad"
    { resolved := some "https://x/bad.tgz",
      integrity := "sha512-!!!not-base64!!!" }
    (by decide) (by decide) (by decide) (by decide) (by decide)

/-- C4 amended: nested dependencies are traversed exactly when the
record itself produced a SourceRecord: a record without a `resolved` key
contributes nothing, its nested mapping included (first conjunct); a
record dropped for fetch failure also skips its nested mapping (second
conjunct); only an emitted record has its nested mapping traversed, its
results following the record before the siblings (third conjunct). -/
theorem c4_nested_traversal_amended (env : Env) (name integ pre : String)
    (deps rest : DepMap) :
    (process_deps env (.cons name (.record none integ (some deps)) rest) pre =
      process_deps env rest pre) ∧
    (∀ url, strStartsWith integ "sha512-" = false →
      get_sha512 env url = none →
      process_deps env (.cons name (.record (some url) integ (some deps)) rest) pre =
        process_deps env rest pre) ∧
    (∀ url, strStartsWith integ "sha512-" = true →
      process_deps env (.cons name (.record (some url) integ (some deps)) rest) pre =
        { type := "file", url := url, sha512 := String.mk (integ.data.drop 7),
          destFilename := "npm-cache/" ++ lastSeg url } ::
          (process_deps env deps (pre ++ name ++ "/") ++
            process_deps env rest pre)) := by
  refine ⟨?_, ?_, ?_⟩
  · simp [process_deps_cons, processDepsEntry_unresolved]
  · intro url h1 h2
    simp [process_deps_cons, processDepsEntry_resolved, h1, h2, truthyStr]
  · intro url h1
    simp [process_deps_cons, processDepsEntry_resolved, h1, nestedDeps_some]

/-- C4 amended witness: the three conjuncts applied at concrete inputs;
only the emitted parent has its nested entry traversed. -/
theorem c4_nested_traversal_amended_witness :
    (process_deps envNone (.cons "a" (.record none ""
        (some (.cons "b" (.record (some "https://x/b.tgz") "sha512-BBBB" none)
          .nil))) .nil) "" = []) ∧
    (process_deps envNone (.cons "a" (.record (some "https://x/a.tgz") ""
        (some (.cons "b" (.record (some "https://x/b.tgz") "sha512-BBBB" none)
          .nil))) .nil) "" = []) ∧
    (process_deps envNone (.cons "a" (.record (some "https://x/a.tgz") "sha512-AAAA"
        (some (.cons "b" (.record (some "https://x/b.tgz") "sha512-BBBB" none)
          .nil))) .nil) "" =
      [{ type := "file", url := "https://x/a.tgz", sha512 := "AAAA",
         destFilename := "npm-cache/a.tgz" },
       { type := "file", url := "https://x/b.tgz", sha512 := "BBBB",
         destFilename := "npm-cache/b.tgz" }]) := by
  have h := c4_nested_traversal_amended envNone "a" "" ""
    (.cons "b" (.record (some "https://x/b.tgz") "sha512-BBBB" none) .nil) .nil
  have h' := c4_nested_traversal_amended envNone "a" "sha512-AAAA" ""
    (.cons "b" (.record (some "https://x/b.tgz") "sha512-BBBB" none) .nil) .nil
  refine ⟨?_, ?_, ?_⟩
  · rw [h.1]; decide
  · rw [h.2.1 "https://x/a.tgz" (by decide) (by decide)]; decide
  · rw [h'.2.2 "https://x/a.tgz" (by decide)]; decide

/-- C5 amended: every flat-form emitted record has a non-empty URL, and
in both forms an entry whose hash would come from the network is dropped
on fetch failure, never emitted with a placeholder.  (The original
claim's two stronger halves fail: a tree-form URL may be empty and an
inline `sha512-` hash may be empty, as the counterexample shows.) -/
theorem c5_invariant_amended :
    (∀ (env : Env) (pkgs : List (String × PackageInfo)) (l : List SourceRecord),
      processPackages env pkgs = some l → ∀ r ∈ l, r.url ≠ "") ∧
    (∀ (env : Env) (name : String) (info : PackageInfo)
        (rest : List (String × PackageInfo)),
      strStartsWith info.integrity "sha512-" = false →
      get_sha512 env (info.resolved.getD "") = none →
      processPackages env ((name, info) :: rest) = processPackages env rest) ∧
    (∀ (env : Env) (name integ pre url : String) (dep : Option DepMap)
        (rest : DepMap),
      strStartsWith integ "sha512-" = false → get_sha512 env url = none →
      process_deps env (.cons name (.record (some url) integ dep) rest) pre =
        process_deps env rest pre) := by
  refine ⟨fun env pkgs l h r hr => (processPackages_mem env pkgs l h r hr).2,
    ?_, ?_⟩
  · intro env name info rest h1 h2
    simp only [processPackages]
    split
    · rfl
    · rw [if_neg (by simp [h1]), h2]
  · intro env name integ pre url dep rest h1 h2
    simp [process_deps_cons, processDepsEntry_resolved, h1, h2, truthyStr]

/-- C5 amended witness: the three conjuncts at concrete inputs: an
emitted flat record has a non-empty URL, and fetch failures drop the
entry in both forms. -/
theorem c5_invariant_amended_witness :
    ({ type := "file", url := "https://x/a.tgz", sha512 := "000000",
       destFilename := "npm-cache/a" } : SourceRecord).url ≠ "" ∧
    processPackages envNone [("node_modules/nohash",
      { resolved := some "https://x/nohash.tgz", integrity := "" })] = some [] ∧
    process_deps envNone
      (.cons "c" (.record (some "https://x/c.tgz") "" none) .nil) "" = [] := by
  refine ⟨c5_invariant_amended.1 envNone
      [("node_modules/a",
        { resolved := some "https://x/a.tgz", integrity := "sha512-AAAA" })]
      [{ type := "file", url := "https://x/a.tgz", sha512 := "000000",
         destFilename := "npm-cache/a" }] (by decide) _ (by decide), ?_, ?_⟩
  · rw [c5_invariant_amended.2.1 envNone "node_modules/nohash"
      { resolved := some "https://x/nohash.tgz", integrity := "" } []
      (by decide) (by decide)]
    decide
  · rw [c5_invariant_amended.2.2 envNone "c" "" "" "https://x/c.tgz" none .nil
      (by decide) (by decide)]
    decide

/-- C6: confirmed.  For an entry without a usable integrity string, in
either form, the emitted hash is exactly `sha512hex` applied to the
fully fetched response body — the model of
`hashlib.sha512(data).hexdigest()` — and a fetch failure is non-fatal:
only that entry is skipped and the traversal of the remaining entries is
unchanged.  (A real SHA-512 hexdigest is never the empty string, whence
the non-emptiness hypothesis on the digest of the body.) -/
theorem c6_no_integrity_fetch_hash (env : Env)
    (name url integ tname tpre : String) (body : Bytes)
    (rest : List (String × PackageInfo)) (ds : DepMap) (dep : Option DepMap)
    (trest : DepMap)
    (hname : name ≠ "") (hurl : url ≠ "")
    (hint : strStartsWith integ "sha512-" = false) :
    (env.fetch url = some body → env.sha512hex body ≠ "" →
      processPackages env
          ((name, { resolved := some url, integrity := integ }) :: rest) =
        Option.map
          (fun tl => { type := "file", url := url,
                       sha512 := env.sha512hex body,
                       destFilename := "npm-cache/" ++ flatDest name url } :: tl)
          (processPackages env rest)) ∧
    (env.fetch url = none →
      processPackages env
          ((name, { resolved := some url, integrity := integ }) :: rest) =
        processPackages env rest) ∧
    (env.fetch url = some body → env.sha512hex body ≠ "" →
      process_deps env
          (.cons tname (.record (some url) integ (some ds)) trest) tpre =
        { type := "file", url := url, sha512 := env.sha512hex body,
          destFilename := "npm-cache/" ++ lastSeg url } ::
          (process_deps env ds (tpre ++ tname ++ "/") ++
            process_deps env trest tpre)) ∧
    (env.fetch url = none →
      process_deps env (.cons tname (.record (some url) integ dep) trest) tpre =
        process_deps env trest tpre) := by
  have ht : truthyStr (some url) = true := (truthyStr_some_iff url).mpr hurl
  refine ⟨?_, ?_, ?_, ?_⟩
  · intro hf hz
    simp [processPackages, get_sha512, hname, ht, hint, hf, hz]
  · intro hf
    simp [processPackages, get_sha512, hname, ht, hint, hf]
  · intro hf hz
    have htz := (truthyStr_some_iff (env.sha512hex body)).mpr hz
    simp [process_deps_cons, processDepsEntry_resolved, nestedDeps_some,
      get_sha512, hint, hf, htz]
  · intro hf
    simp [process_deps_cons, processDepsEntry_resolved, get_sha512, hint, hf,
      truthyStr]

/-- An environment where every fetch succeeds with the one-byte body
`[1]` and the digest model renders it as `d00d`. -/
def envSome : Env :=
  { sha512hex := fun _ => "d00d", fetch := fun _ => some [1] }

/-- C6 witness: the four conjuncts at concrete inputs: on fetch success
the emitted hash is the digest of the body in both forms; on fetch
failure the entry disappears and the rest is unchanged. -/
theorem c6_no_integrity_fetch_hash_witness :
    processPackages envSome
      [("node_modules/f", { resolved := some "https://x/f.tgz", integrity := "" })] =
      some [{ type := "file", url := "https://x/f.tgz", sha512 := "d00d",
              destFilename := "npm-cache/f" }] ∧
    processPackages envNone
      [("node_modules/f", { resolved := some "https://x/f.tgz", integrity := "" })] =
      some [] ∧
    process_deps envSome
      (.cons "t" (.record (some "https://x/f.tgz") "" (some .nil)) .nil) "" =
      [{ type := "file", url := "https://x/f.tgz", sha512 := "d00d",
         destFilename := "npm-cache/f.tgz" }] ∧
    process_deps envNone
      (.cons "t" (.record (some "https://x/f.tgz") "" none) .nil) "" = [] := by
  have hS := c6_no_integrity_fetch_hash envSome "node_modules/f" "https://x/f.tgz"
    "" "t" "" [1] [] .nil none .nil (by decide) (by decide) (by decide)
  have hN := c6_no_integrity_fetch_hash envNone "node_modules/f" "https://x/f.tgz"
    "" "t" "" [] [] .nil none .nil (by decide) (by decide) (by decide)
  refine ⟨?_, ?_, ?_, ?_⟩
  · rw [hS.1 (by decide) (by decide)]; decide
  · rw [hN.2.1 (by decide)]; decide
  · rw [hS.2.2.1 (by decide) (by decide)]; decide
  · rw [hN.2.2.2 (by decide)]; decide

/-- C7 amended: every element of the emitted array has exactly the keys
type, url, sha512, dest-filename in that order, with type always
"file"; but the sha512 value is not in general a string of 64 lowercase
hex characters (see the counterexample; even a correctly decoded
SHA-512 digest renders as 128 hex characters, and the tree form emits
raw base64). -/
theorem c7_output_shape_amended (env : Env) (doc : LockDocument)
    (l : List SourceRecord) (h : process_package_lock env doc = some l) :
    ∀ r ∈ l, r.type = "file" ∧
      r.toPairs.map Prod.fst = ["type", "url", "sha512", "dest-filename"] := by
  intro r hr
  refine ⟨?_, by simp [SourceRecord.toPairs]⟩
  rcases doc with ⟨pk, dp⟩
  rcases pk with - | pkgs
  · rcases dp with - | deps
    · simp only [process_package_lock, Option.some.injEq] at h
      subst h
      cases hr
    · simp only [process_package_lock, Option.some.injEq] at h
      subst h
      exact process_deps_type env deps "" r hr
  · simp only [process_package_lock] at h
    exact (processPackages_mem env pkgs l h r hr).1

/-- C7 amended witness: the amended theorem applied to the concrete
flat document with the short hash. -/
theorem c7_output_shape_amended_witness :
    ({ type := "file", url := "https://x/a.tgz", sha512 := "000000",
       destFilename := "npm-cache/a" } : SourceRecord).type = "file" ∧
    ({ type := "file", url := "https://x/a.tgz", sha512 := "000000",
       destFilename := "npm-cache/a" } : SourceRecord).toPairs.map Prod.fst =
      ["type", "url", "sha512", "dest-filename"] :=
  c7_output_shape_amended envNone docFlatAAAA
    [{ type := "file", url := "https://x/a.tgz", sha512 := "000000",
       destFilename := "npm-cache/a" }] (by decide)
    { type := "file", url := "https://x/a.tgz", sha512 := "000000",
      destFilename := "npm-cache/a" } (by decide)

/-- C8 amended: the destination filename is `npm-cache/` followed by:
in flat form, the key minus its first 13 characters when it begins with
`node_modules/` (the remainder kept verbatim, internal slashes
preserved), otherwise the last segment of the URL's parsed path
component; in tree form, always the last `/`-separated segment of the
raw URL string, which keeps query or fragment text after the last slash
(the counterexample separates the two readings). -/
theorem c8_dest_filenames_amended (env : Env)
    (name url integ tname tpre : String) (bs : Bytes)
    (rest : List (String × PackageInfo)) (trest : DepMap)
    (hint : strStartsWith integ "sha512-" = true)
    (hdec : b64decodePy (flatIntegrityB64 integ) = some bs)
    (hname : name ≠ "") (hurl : url ≠ "") :
    (strStartsWith name "node_modules/" = true →
      processPackages env
          ((name, { resolved := some url, integrity := integ }) :: rest) =
        Option.map
          (fun tl => { type := "file", url := url, sha512 := bytesToHex bs,
                       destFilename :=
                         "npm-cache/" ++ String.mk (name.data.drop 13) } :: tl)
          (processPackages env rest)) ∧
    (strStartsWith name "node_modules/" = false →
      processPackages env
          ((name, { resolved := some url, integrity := integ }) :: rest) =
        Option.map
          (fun tl => { type := "file", url := url, sha512 := bytesToHex bs,
                       destFilename :=
                         "npm-cache/" ++ lastSeg (urlparsePath url) } :: tl)
          (processPackages env rest)) ∧
    (process_deps env (.cons tname (.record (some url) integ none) trest) tpre =
      { type := "file", url := url, sha512 := String.mk (integ.data.drop 7),
        destFilename := "npm-cache/" ++ lastSeg url } ::
        process_deps env trest tpre) := by
  have ht : truthyStr (some url) = true := (truthyStr_some_iff url).mpr hurl
  refine ⟨?_, ?_, ?_⟩
  · intro hp
    simp [processPackages, hname, ht, hint, hdec, flatDest, hp]
  · intro hp
    simp [processPackages, hname, ht, hint, hdec, flatDest, hp]
  · simp [process_deps_cons, processDepsEntry_resolved, hint, nestedDeps_none]

/-- C8 amended witness: the three destination rules at concrete inputs,
including a scoped package name whose internal slash is preserved. -/
theorem c8_dest_filenames_amended_witness :
    processPackages envNone
      [("node_modules/@scope/pkg",
        { resolved := some "https://x/p/pkg-1.0.tgz", integrity := "sha512-AAAA" })] =
      some [{ type := "file", url := "https://x/p/pkg-1.0.tgz", sha512 := "000000",
              destFilename := "npm-cache/@scope/pkg" }] ∧
    processPackages envNone
      [("oddkey",
        { resolved := some "https://x/p/pkg-1.0.tgz", integrity := "sha512-AAAA" })] =
      some [{ type := "file", url := "https://x/p/pkg-1.0.tgz", sha512 := "000000",
              destFilename := "npm-cache/pkg-1.0.tgz" }] ∧
    process_deps envNone
      (.cons "p" (.record (some "https://x/p/pkg-1.0.tgz") "sha512-AAAA" none) .nil) "" =
      [{ type := "file", url := "https://x/p/pkg-1.0.tgz", sha512 := "AAAA",
         destFilename := "npm-cache/pkg-1.0.tgz" }] := by
  have h1 := c8_dest_filenames_amended envNone "node_modules/@scope/pkg"
    "https://x/p/pkg-1.0.tgz" "sha512-AAAA" "p" "" [0, 0, 0] [] .nil
    (by decide) (by decide) (by decide) (by decide)
  have h2 := c8_dest_filenames_amended envNone "oddkey"
    "https://x/p/pkg-1.0.tgz" "sha512-AAAA" "p" "" [0, 0, 0] [] .nil
    (by decide) (by decide) (by decide) (by decide)
  refine ⟨?_, ?_, ?_⟩
  · rw [h1.1 (by decide)]; decide
  · rw [h2.2.1 (by decide)]; decide
  · rw [h1.2.2]; decide

/-- C9: confirmed.  No record is ever emitted for the flat-form entry
with the empty key (first conjunct), for a flat-form entry without a
`resolved` key (second conjunct), or for a tree-form entry without a
`resolved` key (third conjunct): in each case the traversal result is
exactly that of the remaining entries. -/
theorem c9_root_and_unresolved_skipped :
    (∀ (env : Env) (info : PackageInfo) (rest : List (String × PackageInfo)),
      processPackages env (("", info) :: rest) = processPackages env rest) ∧
    (∀ (env : Env) (name integ : String) (rest : List (String × PackageInfo)),
      processPackages env ((name, { resolved := none, integrity := integ }) :: rest) =
        processPackages env rest) ∧
    (∀ (env : Env) (name integ pre : String) (dep : Option DepMap) (rest : DepMap),
      process_deps env (.cons name (.record none integ dep) rest) pre =
        process_deps env rest pre) := by
  refine ⟨fun env info rest => ?_, fun env name integ rest => ?_,
          fun env name integ pre dep rest => ?_⟩
  · simp [processPackages]
  · simp [processPackages, truthyStr]
  · simp [process_deps_cons, processDepsEntry_unresolved]

/-- C10: confirmed.  A tree-form entry whose value is not a mapping
fails the `isinstance(info, dict)` test and is skipped silently: the
traversal of the remaining entries is unaffected, and `process_deps` is
a total function, so no input of this shape can make it fail. -/
theorem c10_non_dict_entry_skipped :
    ∀ (env : Env) (name v pre : String) (rest : DepMap),
      process_deps env (.cons name (.scalar v) rest) pre = process_deps env rest pre := by
  intro env name v pre rest
  simp [process_deps_cons, processDepsEntry_scalar]

end FlowForge
